import Mathlib

/-!
Verification development for the request-handling core of a small static
file server (`src/server.rs`).

The embedding is byte-level: request paths, file names and response bodies
are lists of byte values (`List Nat`, each `< 256`).  Filesystem paths are
lists of components (`FsPath`), mirroring `std::path::Path` component
semantics on Unix.  Panics (`unwrap` failures) are modelled by `Option`
with `none` meaning the handler panicked; fallible I/O is `Except String`
carrying the error message (the `Display` text of `io::Error`).

The filesystem is an abstract read-only oracle (`FS`), queried exactly
where the source performs syscalls (`is_dir`, `read_dir`, `File::open` +
`read_to_end`).  `..` components are resolved by the kernel at syscall
time, never lexically by the library; `normPath` models that resolution
(symlinks are out of scope).
-/

namespace Sfz

/-! ## Bytes and UTF-8 -/

/-- UTF-8 encoding of one scalar value, by code point (standard encoding,
as produced by Rust `String`/`str`). -/
def encodeChar (c : Nat) : List Nat :=
  if c < 128 then [c]
  else if c < 2048 then [192 + c / 64, 128 + c % 64]
  else if c < 65536 then [224 + c / 4096, 128 + (c / 64) % 64, 128 + c % 64]
  else [240 + c / 262144, 128 + (c / 4096) % 64, 128 + (c / 64) % 64, 128 + c % 64]

/-- The UTF-8 bytes of a Lean string (model of `str::as_bytes`). -/
def bytesOf (s : String) : List Nat :=
  (s.data.map (fun c => encodeChar c.toNat)).flatten

/-- Is `b` a UTF-8 continuation byte (`0x80..=0xBF`)? -/
def isCont (b : Nat) : Bool := 128 ≤ b && b < 192

/-- Allowed range of the first continuation byte of a 3-byte sequence
(excludes overlong forms for lead `0xE0` and surrogates for lead `0xED`). -/
def cont3ok (b c1 : Nat) : Bool :=
  (if b = 224 then 160 else 128) ≤ c1 && c1 < (if b = 237 then 160 else 192)

/-- Allowed range of the first continuation byte of a 4-byte sequence
(excludes overlong forms for lead `0xF0` and values above `U+10FFFF` for
lead `0xF4`). -/
def cont4ok (b c1 : Nat) : Bool :=
  (if b = 240 then 144 else 128) ≤ c1 && c1 < (if b = 244 then 144 else 192)

/-- Continuation of a 2-byte sequence: consume one continuation byte. -/
def chunk2 : List Nat → Option (List Nat)
  | c1 :: r => if isCont c1 then some r else none
  | [] => none

/-- Continuation of a 3-byte sequence with lead byte `b`. -/
def chunk3 (b : Nat) : List Nat → Option (List Nat)
  | c1 :: c2 :: r => if cont3ok b c1 && isCont c2 then some r else none
  | _ => none

/-- Continuation of a 4-byte sequence with lead byte `b`. -/
def chunk4 (b : Nat) : List Nat → Option (List Nat)
  | c1 :: c2 :: c3 :: r => if cont4ok b c1 && isCont c2 && isCont c3 then some r else none
  | _ => none

/-- Consume one well-formed UTF-8 scalar from the front, returning the
remaining bytes, or `none` when the front is ill-formed. -/
def utf8Chunk? : List Nat → Option (List Nat)
  | [] => none
  | b :: rest =>
    if b < 128 then some rest
    else if 194 ≤ b ∧ b < 224 then chunk2 rest
    else if 224 ≤ b ∧ b < 240 then chunk3 b rest
    else if 240 ≤ b ∧ b < 245 then chunk4 b rest
    else none

/-- Fuel-driven validity scan (the fuel only serves termination; any fuel
at least the length of the input gives the same answer). -/
def validUtf8Fuel : Nat → List Nat → Bool
  | _, [] => true
  | 0, _ :: _ => false
  | f + 1, b :: rest =>
    match utf8Chunk? (b :: rest) with
    | some r => validUtf8Fuel f r
    | none => false

/-- UTF-8 validity of a byte sequence, exactly the condition under which
Rust `str::from_utf8` (and hence `Cow::decode_utf8` / `OsStr::to_str`)
succeeds. -/
def validUtf8 (bs : List Nat) : Bool := validUtf8Fuel bs.length bs

/-- Value of an ASCII hex digit, the test `(b as char).to_digit(16)` used by
the `percent_encoding` crate. -/
def hexVal? (b : Nat) : Option Nat :=
  if 48 ≤ b ∧ b ≤ 57 then some (b - 48)
  else if 97 ≤ b ∧ b ≤ 102 then some (b - 87)
  else if 65 ≤ b ∧ b ≤ 70 then some (b - 55)
  else none

/-- Percent-decoding of a byte string (the `percent_encoding` crate's
`percent_decode`): a `%` followed by two hex digits becomes the decoded
byte; otherwise the `%` is passed through literally and scanning resumes at
the next byte. -/
def percentDecode : List Nat → List Nat
  | 37 :: h :: l :: rest =>
    (match hexVal? h, hexVal? l with
     | some hv, some lv => (hv * 16 + lv) :: percentDecode rest
     | _, _ => 37 :: percentDecode (h :: l :: rest))
  | b :: rest => b :: percentDecode rest
  | [] => []

/-! ## Filesystem paths

A path component is a byte string (Unix file names are arbitrary bytes);
an absolute path is its list of components below the filesystem root.
`.` never occurs as a stored component (component iteration drops it) and
`..` is kept literally, as in `std::path::Path`. -/

abbrev FsName := List Nat

abbrev FsPath := List FsName

/-- `Path::strip_prefix` (component-wise, lexical). -/
def stripPrefixPath : FsPath → FsPath → Option FsPath
  | [], p => some p
  | _ :: _, [] => none
  | b :: bs, c :: cs => if b = c then stripPrefixPath bs cs else none

/-- `Path::parent`: `none` at the filesystem root. -/
def parent? (p : FsPath) : Option FsPath :=
  if p = [] then none else some p.dropLast

/-- The byte string displayed for a relative path: components joined
with `/` (`[]` displays as the empty string). -/
def relBytes : FsPath → List Nat
  | [] => []
  | [n] => n
  | n :: rest => n ++ 47 :: relBytes rest

/-- `Path::to_str` on a relative path: the joined bytes when they are
valid UTF-8, otherwise `none` (the source unwraps this, i.e. panics). -/
def pathToStr? (p : FsPath) : Option (List Nat) :=
  if validUtf8 (relBytes p) then some (relBytes p) else none

/-- `Path::file_name`: the last component, except that a path ending in
`..` (or the root) has no file name. -/
def fileName? (p : FsPath) : Option FsName :=
  match p.getLast? with
  | none => none
  | some n => if n = [46, 46] then none else some n

/-- Split a byte-string file name at its last `.`, returning the stem and
the part after the dot. -/
def splitLastDot : FsName → Option (FsName × FsName)
  | [] => none
  | b :: rest =>
    match splitLastDot rest with
    | some (pre, ext) => some (b :: pre, ext)
    | none => if b = 46 then some ([], rest) else none

/-- `Path::extension` applied to a file name: bytes after the last `.`,
none when there is no dot or when the name starts with its only dot
(hidden files). -/
def extOfName? (name : FsName) : Option FsName :=
  match splitLastDot name with
  | some (pre, ext) => if pre = [] then none else some ext
  | none => none

/-- `Path::extension` of a whole path. -/
def fileExtension? (p : FsPath) : Option FsName :=
  match fileName? p with
  | none => none
  | some n => extOfName? n

/-- Split a byte string into groups separated by `/` (byte 47). -/
def splitBytes : List Nat → List (List Nat)
  | [] => [[]]
  | b :: rest =>
    if b = 47 then [] :: splitBytes rest
    else
      match splitBytes rest with
      | [] => [[b]]
      | g :: gs => (b :: g) :: gs

/-- Path components of a byte string: split at `/`, dropping empty
components and `.` (exactly `Path::components` on Unix, which collapses
repeated separators and interior `.`). -/
def splitComponents (bs : List Nat) : FsPath :=
  (splitBytes bs).filter (fun c => !(c = [] || c = [46]))

/-- `PathBuf::join`: an absolute right operand (leading `/`) replaces the
base, otherwise its components are appended.  `..` is NOT resolved here —
this is the path-traversal behavior the source inherits. -/
def joinPath (base : FsPath) (bs : List Nat) : FsPath :=
  if bs.head? = some 47 then splitComponents bs else base ++ splitComponents bs

/-- Kernel-side resolution of `.`/`..` performed when a path reaches a
syscall (`..` at the root stays at the root; symlinks out of scope). -/
def normPath (p : FsPath) : FsPath :=
  p.foldl (fun acc c => if c = [46, 46] then acc.dropLast else if c = [46] then acc else acc ++ [c]) []

/-! ## Filesystem oracle -/

/-- Read-only filesystem oracle.  Queries take already-resolved paths;
errors carry the `Display` message of the underlying `io::Error`. -/
structure FS where
  isDir : FsPath → Bool
  readDir : FsPath → Except String (List FsName)
  readFile : FsPath → Except String (List Nat)

/-- `Path::is_dir` (a `stat` syscall: the kernel resolves dot components). -/
def FS.isDirAt (fs : FS) (p : FsPath) : Bool := fs.isDir (normPath p)

/-- `Path::read_dir`, listing child names (never `.`/`..`). -/
def FS.readDirAt (fs : FS) (p : FsPath) : Except String (List FsName) :=
  fs.readDir (normPath p)

/-- `File::open` + `read_to_end`. -/
def FS.readFileAt (fs : FS) (p : FsPath) : Except String (List Nat) :=
  fs.readFile (normPath p)

/-- The children `read_dir` yields, or `[]` when it fails. -/
def readDirOrNil (fs : FS) (p : FsPath) : List FsName :=
  match fs.readDirAt p with
  | .ok cs => cs
  | .error _ => []

/-! ## HTTP data model (`ServerOptions`, request, response) -/

structure ServerOptions where
  host : String
  port : Nat
  cors : Bool
deriving DecidableEq

/-- `impl Default for ServerOptions`. -/
def ServerOptions.default : ServerOptions :=
  { host := "127.0.0.1", port := 8888, cors := false }

/-- An incoming request as hyper delivers it: the handler only ever reads
`uriPath` (`req.path()`); method, headers and body are carried to make
that observable. -/
structure Request where
  method : String
  uriPath : String
  headers : List (String × String)
  body : List Nat
deriving DecidableEq

/-- The four headers `handle_request` sets unconditionally plus the two
optional CORS headers; `none` means the header is absent. -/
structure Headers where
  contentType : String
  contentLength : Nat
  server : String
  accessControlAllowOrigin : Option String
  accessControlAllowHeaders : Option (List String)
deriving DecidableEq

structure Response where
  headers : Headers
  body : List Nat
deriving DecidableEq

/-- Modelled from the spec: the fixed `<product-name>/<version>` string
(from Cargo package metadata, which is not under `src/`). -/
def SERVER_VERSION : String := "sfz/0.1.0"

/-! ## MIME classifier -/

def textPlain : String := "text/plain"

def textHtmlUtf8 : String := "text/html; charset=utf-8"

def textHtml : String := "text/html"

def textCss : String := "text/css"

def appJs : String := "application/javascript"

def appJson : String := "application/json"

def imagePng : String := "image/png"

def imageGif : String := "image/gif"

def imageJpeg : String := "image/jpeg"

/-- ASCII lowercasing of one byte. -/
def toLowerByte (b : Nat) : Nat := if 65 ≤ b ∧ b ≤ 90 then b + 32 else b

/-- Modelled from the spec: a representative slice of the static
extension→MIME table of the `mime_guess` crate (its source is not part of
this repository).  Keys are lowercase extension bytes: css, gif, htm,
html, jpg, js, json, png, txt. -/
def mimeTable : List (FsName × String) :=
  [([99, 115, 115], textCss), ([103, 105, 102], imageGif),
   ([104, 116, 109], textHtml), ([104, 116, 109, 108], textHtml),
   ([106, 112, 103], imageJpeg), ([106, 115], appJs),
   ([106, 115, 111, 110], appJson), ([112, 110, 103], imagePng),
   ([116, 120, 116], textPlain)]

/-- Modelled from the spec: `get_mime_type_opt` — look the lowercase file
extension up in the static table. -/
def getMimeTypeOpt (ext : FsName) : Option String :=
  (mimeTable.find? (fun kv => kv.1 == ext.map toLowerByte)).map (fun kv => kv.2)

/-- The MIME guessing block of `handle_request` (lines 110–121):
directories are `text/html; charset=utf-8`; files go through the table on
their extension (a non-UTF-8 extension degrades to `""` via `unwrap_or`),
defaulting to `text/plain`. -/
def classifyMime (fs : FS) (p : FsPath) : String :=
  if fs.isDirAt p then textHtmlUtf8
  else
    match fileExtension? p with
    | some ext =>
      match getMimeTypeOpt (if validUtf8 ext then ext else []) with
      | some m => m
      | none => textPlain
    | none => textPlain

/-! ## Path resolver (lines 94–101) -/

/-- `&s[1..]` on the request path: `none` (panic) when the string is empty
or byte 1 is not a character boundary. -/
def sliceBytesFrom1? (bs : List Nat) : Option (List Nat) :=
  match bs with
  | [] => none
  | _ :: rest =>
    match rest with
    | [] => some []
    | b :: _ => if isCont b then none else some rest

/-- Percent-decode and UTF-8-check the sliced bytes, then join onto the
current directory.  `none` models the `unwrap` panic on invalid UTF-8. -/
def resolveRaw? (cwd : FsPath) (raw : List Nat) : Option FsPath :=
  if validUtf8 (percentDecode raw) then some (joinPath cwd (percentDecode raw)) else none

/-- The whole resolver on raw path bytes. -/
def resolvePathBytes? (cwd : FsPath) (bs : List Nat) : Option FsPath :=
  (sliceBytesFrom1? bs).bind (resolveRaw? cwd)

/-- The whole resolver on the request path string. -/
def resolveReqPath? (cwd : FsPath) (uriPath : String) : Option FsPath :=
  resolvePathBytes? cwd (bytesOf uriPath)

/-! ## Directory renderer (`handle_dir`, lines 146–203) -/

structure Entry where
  name : List Nat
  path : List Nat
deriving DecidableEq

/-- The bytes of `".."`. -/
def dotdot : FsName := [46, 46]

/-- Lines 151–155: the heading — the directory relative to the parent of
the base directory, with a trailing `/`.  `none` is the `unwrap` panic of
`strip_prefix` or `to_str`. -/
def dirName? (cwd dirPath : FsPath) : Option (List Nat) :=
  let baseParent := (parent? cwd).getD cwd
  match stripPrefixPath baseParent dirPath with
  | none => none
  | some rel =>
    match pathToStr? rel with
    | none => none
    | some bs => some (bs ++ [47])

/-- Lines 157–168: the synthesized `..` entry, `some none` when the listed
directory is the base directory itself, outer `none` on an `unwrap` panic. -/
def parentEntry? (cwd dirPath : FsPath) : Option (Option Entry) :=
  if cwd = dirPath then some none
  else
    match parent? dirPath with
    | none => none
    | some par =>
      match stripPrefixPath cwd par with
      | none => none
      | some rel =>
        match pathToStr? rel with
        | none => none
        | some bs => some (some { name := dotdot, path := 47 :: bs })

/-- Lines 170–193, body of the enumeration loop for one child `c`:
`some none` when `strip_prefix` fails and the child is silently skipped
(`unwrap_or(())`); outer `none` when `file_name().unwrap()` or
`to_str().unwrap()` panics.  `rel.is_dir()` is a relative-path syscall,
resolved against the process working directory. -/
def childEntry? (fs : FS) (cwd dirPath : FsPath) (c : FsName) : Option (Option Entry) :=
  match stripPrefixPath cwd (dirPath ++ [c]) with
  | none => some none
  | some rel =>
    match fileName? rel with
    | none => none
    | some last =>
      if validUtf8 last then
        match pathToStr? rel with
        | none => none
        | some bs =>
          some (some { name := if fs.isDirAt (cwd ++ rel) then last ++ [47] else last
                       path := 47 :: bs })
      else none

/-- The enumeration loop over all children, in filesystem order. -/
def entriesOf (fs : FS) (cwd dirPath : FsPath) : List FsName → Option (List Entry)
  | [] => some []
  | c :: cs =>
    match childEntry? fs cwd dirPath c with
    | none => none
    | some oe =>
      match entriesOf fs cwd dirPath cs with
      | none => none
      | some es => some (oe.toList ++ es)

/-- The full `files` vector handed to the template: optional `..` entry
first, then one entry per (non-skipped) child. -/
def dirFiles? (fs : FS) (cwd dirPath : FsPath) (children : List FsName) : Option (List Entry) :=
  match parentEntry? cwd dirPath with
  | none => none
  | some pe =>
    match entriesOf fs cwd dirPath children with
    | none => none
    | some es => some (pe.toList ++ es)

def tplA : String := "<h1>"

def tplB : String := "</h1><ul>"

def tplC : String := "<li><a href=\x22"

def tplD : String := "\x22>"

def tplE : String := "</a></li>"

def tplF : String := "</ul>"

/-- Modelled from the spec: the bundled `template.html` Tera template (a
static asset, not under `src/`) with its two substitution points — the
heading and the ordered (link, name) rows. -/
def renderPage (dirName : List Nat) (files : List Entry) : List Nat :=
  bytesOf tplA ++ dirName ++ bytesOf tplB
    ++ (files.map (fun e => bytesOf tplC ++ e.path ++ bytesOf tplD ++ e.name ++ bytesOf tplE)).flatten
    ++ bytesOf tplF

/-- `handle_dir`: heading, `..` entry, `read_dir` (whose `io::Error` is
returned as `Err`), the child loop, then template rendering.  `none` is a
panic escaping the function. -/
def handle_dir (fs : FS) (cwd dirPath : FsPath) : Option (Except String (List Nat)) :=
  match dirName? cwd dirPath with
  | none => none
  | some dn =>
    match parentEntry? cwd dirPath with
    | none => none
    | some _ =>
      match fs.readDirAt dirPath with
      | .error e => some (.error e)
      | .ok children =>
        match dirFiles? fs cwd dirPath children with
        | none => none
        | some files => some (.ok (renderPage dn files))

/-! ## File reader and request handler -/

/-- `handle_file` (lines 206–212): read the whole file. -/
def handle_file (fs : FS) (p : FsPath) : Except String (List Nat) :=
  fs.readFileAt p

def errPre : String := "Error: "

/-- The `error_handler` closure (line 103): `Vec::from(format!("Error: {}", e))`. -/
def errorBody (e : String) : List Nat := bytesOf (errPre ++ e)

def star : String := "*"

def hdrRange : String := "Range"

def hdrContentType : String := "Content-Type"

def hdrAccept : String := "Accept"

def hdrOrigin : String := "Origin"

/-- The `Access-Control-Allow-Headers` value list (lines 131–136). -/
def corsAllowHeaders : List String := [hdrRange, hdrContentType, hdrAccept, hdrOrigin]

/-- `MyService::handle_request` (lines 93–142).  `cwd` is the process
working directory at the time of this request (`env::current_dir()` is
called afresh inside the handler — there is no startup-resolved root).
`none` models a panic escaping the handler (no response emitted). -/
def handle_request (opts : ServerOptions) (fs : FS) (cwd : FsPath) (req : Request) : Option Response :=
  match resolveReqPath? cwd req.uriPath with
  | none => none
  | some req_path =>
    match (if fs.isDirAt req_path then handle_dir fs cwd req_path
           else some (handle_file fs req_path)) with
    | none => none
    | some bres =>
      let body := match bres with
        | .ok b => b
        | .error e => errorBody e
      some
        { headers :=
            { contentType := classifyMime fs req_path
              contentLength := body.length
              server := SERVER_VERSION
              accessControlAllowOrigin := if opts.cors then some star else none
              accessControlAllowHeaders := if opts.cors then some corsAllowHeaders else none }
          body := body }

/-- A run of the process: each incoming request is handled against the
process working directory current at that moment (first component of each
pair).  The server binds no root directory at startup. -/
def serveTrace (opts : ServerOptions) (fs : FS) (reqs : List (FsPath × Request)) : List (Option Response) :=
  reqs.map (fun pr => handle_request opts fs pr.1 pr.2)

/-- Well-formed ordinary file-name bytes: non-empty, not a dot component,
containing neither `/` (impossible in a Unix file name) nor `%` (the
percent-escape trigger). -/
def goodName (n : FsName) : Prop :=
  n ≠ [] ∧ n ≠ [46] ∧ n ≠ [46, 46] ∧ ∀ b ∈ n, b ≠ 47 ∧ b ≠ 37

instance (n : FsName) : Decidable (goodName n) := by
  unfold goodName
  infer_instance

deriving instance DecidableEq for Except

/-! ## Concrete fixtures (small filesystems, requests, responses) -/

/-- Bytes of `srv`. -/
def nsrv : FsName := [115, 114, 118]

/-- Bytes of `a.txt`. -/
def natxt : FsName := [97, 46, 116, 120, 116]

/-- Bytes of `missing.html`. -/
def nhtml : FsName := [109, 105, 115, 115, 105, 110, 103, 46, 104, 116, 109, 108]

/-- Bytes of `x`. -/
def nx : FsName := [120]

/-- Bytes of `b`. -/
def nbdir : FsName := [98]

/-- Bytes of `d`. -/
def nd : FsName := [100]

/-- Bytes of `a`. -/
def na : FsName := [97]

/-- Bytes of the literal file name `%41`. -/
def npct : FsName := [37, 52, 49]

def msgNf : String := "No such file or directory (os error 2)"

/-- A root `/srv` containing one file `a.txt` with content `hi`. -/
def fsA : FS :=
  { isDir := fun p => p == [nsrv]
    readDir := fun p => if p == [nsrv] then .ok [natxt] else .error msgNf
    readFile := fun p => if p == [nsrv, natxt] then .ok [104, 105] else .error msgNf }

/-- A filesystem on which every query fails / nothing is a directory. -/
def fsB : FS :=
  { isDir := fun _ => false
    readDir := fun _ => .error msgNf
    readFile := fun _ => .error msgNf }

/-- A filesystem with a readable file at absolute path `/x` only — requests
resolve differently depending on the working directory. -/
def fsC : FS :=
  { isDir := fun _ => false
    readDir := fun _ => .error msgNf
    readFile := fun p => if p == [nx] then .ok [104, 105] else .error msgNf }

/-- A root `/srv` whose single child has the non-UTF-8 name `0xFF`. -/
def fsN : FS :=
  { isDir := fun p => p == [nsrv]
    readDir := fun p => if p == [nsrv] then .ok [[255]] else .error msgNf
    readFile := fun _ => .error msgNf }

def reqA : Request := { method := "GET", uriPath := "/a.txt", headers := [], body := [] }

/-- Same path as `reqA`, different method, headers and body. -/
def reqApost : Request :=
  { method := "POST", uriPath := "/a.txt"
    headers := [("X-Extra", "1"), ("Accept", "text/html")], body := [0, 1, 2] }

def reqBad : Request := { method := "GET", uriPath := "/%FF", headers := [], body := [] }

def reqMissingHtml : Request :=
  { method := "GET", uriPath := "/missing.html", headers := [], body := [] }

def reqX : Request := { method := "GET", uriPath := "/x", headers := [], body := [] }

/-- The response `fsA` yields for `GET /a.txt` from working directory `/srv`. -/
def respA : Response :=
  { headers :=
      { contentType := textPlain
        contentLength := 2
        server := SERVER_VERSION
        accessControlAllowOrigin := none
        accessControlAllowHeaders := none }
    body := [104, 105] }

def optsOn : ServerOptions := { host := "127.0.0.1", port := 8888, cors := true }

/-- The response `fsA` yields for `GET /a.txt` with CORS enabled. -/
def respAOn : Response :=
  { headers :=
      { contentType := textPlain
        contentLength := 2
        server := SERVER_VERSION
        accessControlAllowOrigin := some star
        accessControlAllowHeaders := some corsAllowHeaders }
    body := [104, 105] }

/-- The listing entries for directory `/srv/d` (child `a`) from root `/srv`. -/
def filesD : List Entry :=
  [{ name := dotdot, path := [47] }, { name := na, path := [47, 100, 47, 97] }]

/-! ## Facts about the byte layer -/

theorem bytesOf_append (s t : String) : bytesOf (s ++ t) = bytesOf s ++ bytesOf t := by
  simp [bytesOf, show (s ++ t).data = s.data ++ t.data from rfl]

theorem chunk2_shorter {rest r : List Nat} (h : chunk2 rest = some r) : r.length < rest.length := by
  match rest with
  | [] => simp [chunk2] at h
  | c1 :: t => unfold chunk2 at h; split at h <;> simp_all

theorem chunk3_shorter {b : Nat} {rest r : List Nat} (h : chunk3 b rest = some r) :
    r.length < rest.length := by
  match rest with
  | [] => simp [chunk3] at h
  | [c1] => simp [chunk3] at h
  | c1 :: c2 :: t =>
    unfold chunk3 at h; split at h <;> simp_all
    omega

theorem chunk4_shorter {b : Nat} {rest r : List Nat} (h : chunk4 b rest = some r) :
    r.length < rest.length := by
  match rest with
  | [] => simp [chunk4] at h
  | [c1] => simp [chunk4] at h
  | [c1, c2] => simp [chunk4] at h
  | c1 :: c2 :: c3 :: t =>
    unfold chunk4 at h; split at h <;> simp_all
    omega

theorem utf8Chunk?_shorter : ∀ {bs r : List Nat}, utf8Chunk? bs = some r → r.length < bs.length := by
  intro bs r h
  match bs with
  | [] => simp [utf8Chunk?] at h
  | b :: rest =>
    simp only [utf8Chunk?] at h
    split at h
    · cases h; exact Nat.lt_succ_self _
    · split at h
      · exact Nat.lt_succ_of_lt (chunk2_shorter h)
      · split at h
        · exact Nat.lt_succ_of_lt (chunk3_shorter h)
        · split at h
          · exact Nat.lt_succ_of_lt (chunk4_shorter h)
          · simp at h

theorem validUtf8Fuel_eq : ∀ (n f g : Nat) (bs : List Nat), bs.length ≤ n → bs.length ≤ f →
    bs.length ≤ g → validUtf8Fuel f bs = validUtf8Fuel g bs := by
  intro n
  induction n with
  | zero =>
    intro f g bs hn _ _
    have hbs : bs = [] := by cases bs <;> simp_all
    subst hbs
    simp [validUtf8Fuel]
  | succ n ih =>
    intro f g bs hn hf hg
    match bs, f, g with
    | [], _, _ => simp [validUtf8Fuel]
    | b :: rest, 0, _ => simp at hf
    | b :: rest, _ + 1, 0 => simp at hg
    | b :: rest, f + 1, g + 1 =>
      simp only [validUtf8Fuel]
      cases hc : utf8Chunk? (b :: rest) with
      | none => rfl
      | some r =>
        have hr := utf8Chunk?_shorter hc
        simp only [List.length_cons] at hn hf hg
        simp only [List.length_cons] at hr
        exact ih f g r (by omega) (by omega) (by omega)

theorem validUtf8_cons (b : Nat) (rest : List Nat) :
    validUtf8 (b :: rest) =
      match utf8Chunk? (b :: rest) with
      | some r => validUtf8 r
      | none => false := by
  unfold validUtf8
  simp only [List.length_cons, validUtf8Fuel]
  cases hc : utf8Chunk? (b :: rest) with
  | none => rfl
  | some r =>
    have hr := utf8Chunk?_shorter hc
    simp only [List.length_cons] at hr
    exact validUtf8Fuel_eq rest.length rest.length r.length r (by omega) (by omega) (by omega)

theorem chunk2_append {rest r : List Nat} (ext : List Nat) (h : chunk2 rest = some r) :
    chunk2 (rest ++ ext) = some (r ++ ext) := by
  match rest with
  | [] => simp [chunk2] at h
  | c1 :: t =>
    unfold chunk2 at h
    split at h <;> simp_all [chunk2]

theorem chunk3_append {b : Nat} {rest r : List Nat} (ext : List Nat) (h : chunk3 b rest = some r) :
    chunk3 b (rest ++ ext) = some (r ++ ext) := by
  match rest with
  | [] => simp [chunk3] at h
  | [c1] => simp [chunk3] at h
  | c1 :: c2 :: t =>
    unfold chunk3 at h
    split at h <;> simp_all [chunk3]

theorem chunk4_append {b : Nat} {rest r : List Nat} (ext : List Nat) (h : chunk4 b rest = some r) :
    chunk4 b (rest ++ ext) = some (r ++ ext) := by
  match rest with
  | [] => simp [chunk4] at h
  | [c1] => simp [chunk4] at h
  | [c1, c2] => simp [chunk4] at h
  | c1 :: c2 :: c3 :: t =>
    unfold chunk4 at h
    split at h <;> simp_all [chunk4]

theorem utf8Chunk?_append {bs r : List Nat} (ext : List Nat) (h : utf8Chunk? bs = some r) :
    utf8Chunk? (bs ++ ext) = some (r ++ ext) := by
  match bs with
  | [] => simp [utf8Chunk?] at h
  | b :: rest =>
    simp only [utf8Chunk?] at h
    simp only [List.cons_append, utf8Chunk?]
    split at h
    · cases h; rw [if_pos (by assumption)]
    · rw [if_neg (by assumption)]
      split at h
      · rw [if_pos (by assumption)]; exact chunk2_append ext h
      · rw [if_neg (by assumption)]
        split at h
        · rw [if_pos (by assumption)]; exact chunk3_append ext h
        · rw [if_neg (by assumption)]
          split at h
          · rw [if_pos (by assumption)]; exact chunk4_append ext h
          · simp at h

theorem validUtf8_append_aux : ∀ (n : Nat) (a b : List Nat), a.length ≤ n →
    validUtf8 a = true → validUtf8 b = true → validUtf8 (a ++ b) = true := by
  intro n
  induction n with
  | zero =>
    intro a b hn hv hb
    have ha : a = [] := by cases a <;> simp_all
    subst ha
    simpa using hb
  | succ n ih =>
    intro a b hlen hv hb
    match a with
    | [] => simpa using hb
    | x :: rest =>
      rw [validUtf8_cons] at hv
      cases hc : utf8Chunk? (x :: rest) with
      | none => rw [hc] at hv; simp at hv
      | some r =>
        rw [hc] at hv
        have happ := utf8Chunk?_append b hc
        rw [List.cons_append, validUtf8_cons, show x :: (rest ++ b) = (x :: rest) ++ b from rfl, happ]
        have hr := utf8Chunk?_shorter hc
        simp only [List.length_cons] at hlen hr
        exact ih r b (by omega) hv hb

theorem validUtf8_append {a b : List Nat} (ha : validUtf8 a = true) (hb : validUtf8 b = true) :
    validUtf8 (a ++ b) = true :=
  validUtf8_append_aux a.length a b (Nat.le_refl _) ha hb

theorem validUtf8_cons47 (r : List Nat) : validUtf8 (47 :: r) = validUtf8 r := by
  rw [validUtf8_cons]
  have : utf8Chunk? (47 :: r) = some r := by simp [utf8Chunk?]
  rw [this]

theorem validUtf8_not_cont {b : Nat} {r : List Nat} (h : validUtf8 (b :: r) = true) :
    isCont b = false := by
  by_contra hcon
  have hc : 128 ≤ b ∧ b < 192 := by
    simp [isCont] at hcon
    omega
  have hnone : utf8Chunk? (b :: r) = none := by
    simp only [utf8Chunk?]
    rw [if_neg (by omega), if_neg (by omega), if_neg (by omega), if_neg (by omega)]
  rw [validUtf8_cons, hnone] at h
  simp at h

/-! ## Facts about the path layer -/

theorem percentDecode_cons_ne37 {b : Nat} (rest : List Nat) (hb : b ≠ 37) :
    percentDecode (b :: rest) = b :: percentDecode rest := by
  rw [percentDecode.eq_def]
  split <;> simp_all

theorem percentDecode_no37 (bs : List Nat) (h : ∀ b ∈ bs, b ≠ 37) : percentDecode bs = bs := by
  induction bs with
  | nil => rfl
  | cons b rest ih =>
    rw [percentDecode_cons_ne37 rest (h b (by simp))]
    rw [ih (fun x hx => h x (by simp [hx]))]

theorem stripPrefixPath_append (a b : FsPath) : stripPrefixPath a (a ++ b) = some b := by
  induction a with
  | nil => rfl
  | cons x xs ih => simp [stripPrefixPath, ih]

theorem relBytes_cons_cons (n m : FsName) (t : FsPath) :
    relBytes (n :: m :: t) = n ++ 47 :: relBytes (m :: t) := rfl

theorem mem_relBytes : ∀ (p : FsPath) (b : Nat), b ∈ relBytes p → b = 47 ∨ ∃ n ∈ p, b ∈ n := by
  intro p
  induction p with
  | nil => intro b hb; simp [relBytes] at hb
  | cons n rest ih =>
    intro b hb
    cases rest with
    | nil => exact Or.inr ⟨n, by simp, by simpa [relBytes] using hb⟩
    | cons m t =>
      rw [relBytes_cons_cons] at hb
      rcases List.mem_append.mp hb with h | h
      · exact Or.inr ⟨n, by simp, h⟩
      · rcases List.mem_cons.mp h with h47 | h2
        · exact Or.inl h47
        · rcases ih b h2 with h | ⟨x, hx, hbx⟩
          · exact Or.inl h
          · exact Or.inr ⟨x, by simp [hx], hbx⟩

theorem validUtf8_relBytes : ∀ (p : FsPath), (∀ n ∈ p, validUtf8 n = true) →
    validUtf8 (relBytes p) = true := by
  intro p
  induction p with
  | nil => intro _; rfl
  | cons n rest ih =>
    intro h
    cases rest with
    | nil => simpa [relBytes] using h n (by simp)
    | cons m t =>
      rw [relBytes_cons_cons]
      apply validUtf8_append (h n (by simp))
      rw [validUtf8_cons47]
      exact ih (fun x hx => h x (by simp [hx]))

theorem splitBytes_cons_ex (bs : List Nat) : ∃ g gs, splitBytes bs = g :: gs := by
  induction bs with
  | nil => exact ⟨[], [], rfl⟩
  | cons b rest ih =>
    obtain ⟨g, gs, h⟩ := ih
    by_cases hb : b = 47
    · exact ⟨[], splitBytes rest, by simp [splitBytes, hb]⟩
    · exact ⟨b :: g, gs, by simp [splitBytes, hb, h]⟩

theorem splitBytes_prepend (n bs : List Nat) (h47 : ∀ x ∈ n, x ≠ 47) (g : List Nat)
    (gs : List (List Nat)) (h : splitBytes bs = g :: gs) :
    splitBytes (n ++ bs) = (n ++ g) :: gs := by
  induction n with
  | nil => simpa using h
  | cons x xs ih =>
    have hx : x ≠ 47 := h47 x (by simp)
    have ihh := ih (fun y hy => h47 y (by simp [hy]))
    simp [splitBytes, hx, ihh]

theorem splitComponents_relBytes : ∀ (p : FsPath), (∀ n ∈ p, goodName n) →
    splitComponents (relBytes p) = p := by
  intro p
  induction p with
  | nil => intro _; rfl
  | cons n rest ih =>
    intro hp
    obtain ⟨hn1, hn2, _, hn4⟩ := hp n (by simp)
    have h47 : ∀ x ∈ n, x ≠ 47 := fun x hx => (hn4 x hx).1
    cases rest with
    | nil =>
      have hsb : splitBytes (n ++ []) = (n ++ []) :: [] := splitBytes_prepend n [] h47 [] [] rfl
      rw [List.append_nil] at hsb
      show splitComponents (relBytes [n]) = [n]
      rw [show relBytes [n] = n from rfl]
      simp [splitComponents, hsb, hn1, hn2]
    | cons m t =>
      have ihh := ih (fun x hx => hp x (by simp [hx]))
      obtain ⟨g, gs, hgs⟩ := splitBytes_cons_ex (relBytes (m :: t))
      have hs47 : splitBytes (47 :: relBytes (m :: t)) = [] :: g :: gs := by
        simp [splitBytes, hgs]
      have hsb := splitBytes_prepend n (47 :: relBytes (m :: t)) h47 [] (g :: gs) hs47
      rw [List.append_nil] at hsb
      rw [relBytes_cons_cons]
      simp only [splitComponents] at ihh ⊢
      rw [hgs] at ihh
      rw [hsb, List.filter_cons]
      simp [hn1, hn2]
      simpa using ihh
theorem relBytes_head_ne47 : ∀ (p : FsPath), (∀ n ∈ p, goodName n) →
    (relBytes p).head? ≠ some 47 := by
  intro p hp
  cases p with
  | nil => simp [relBytes]
  | cons n rest =>
    obtain ⟨hn1, _, _, hn4⟩ := hp n (by simp)
    match n, hn1 with
    | x :: xs, _ =>
      have hx : x ≠ 47 := ((hn4 x (by simp)).1)
      cases rest with
      | nil => simpa [relBytes] using hx
      | cons m t => simpa [relBytes_cons_cons] using hx

theorem resolveLink (cwd t : FsPath) (hv : validUtf8 (relBytes t) = true)
    (hP : ∀ n ∈ t, goodName n) :
    resolvePathBytes? cwd (47 :: relBytes t) = some (cwd ++ t) := by
  have hno37 : ∀ b ∈ relBytes t, b ≠ 37 := by
    intro b hb
    rcases mem_relBytes t b hb with h | ⟨n, hn, hbn⟩
    · omega
    · exact ((hP n hn).2.2.2 b hbn).2
  have hpd : percentDecode (relBytes t) = relBytes t := percentDecode_no37 _ hno37
  have hslice : sliceBytesFrom1? (47 :: relBytes t) = some (relBytes t) := by
    cases hR : relBytes t with
    | nil => simp [sliceBytesFrom1?]
    | cons b r =>
      have hb : isCont b = false := validUtf8_not_cont (hR ▸ hv)
      simp [sliceBytesFrom1?, hb]
  have hjoin : joinPath cwd (relBytes t) = cwd ++ t := by
    rw [joinPath, if_neg (relBytes_head_ne47 t hP), splitComponents_relBytes t hP]
  simp only [resolvePathBytes?, hslice, Option.some_bind]
  simp only [resolveRaw?, hpd, hv, if_true, hjoin]
theorem pathToStr?_some {p : FsPath} {bs : List Nat} (h : pathToStr? p = some bs) :
    validUtf8 (relBytes p) = true ∧ bs = relBytes p := by
  unfold pathToStr? at h
  split at h <;> simp_all

theorem pathToStr?_of_valid {p : FsPath} (h : validUtf8 (relBytes p) = true) :
    pathToStr? p = some (relBytes p) := by
  unfold pathToStr?
  rw [if_pos h]

theorem cwd_ne_append {cwd rel : FsPath} (h : rel ≠ []) : cwd ≠ cwd ++ rel := by
  intro hc
  exact h (List.self_eq_append_right.mp hc)

theorem parent?_append {cwd rel : FsPath} (h : rel ≠ []) :
    parent? (cwd ++ rel) = some (cwd ++ rel.dropLast) := by
  unfold parent?
  rw [if_neg (by simp [h]), List.dropLast_append_of_ne_nil cwd h]

theorem parentEntry?_self (cwd : FsPath) : parentEntry? cwd cwd = some none := by
  simp [parentEntry?]

theorem parentEntry?_descend (cwd rel : FsPath) (h : rel ≠ []) :
    parentEntry? cwd (cwd ++ rel) =
      match pathToStr? rel.dropLast with
      | none => none
      | some bs => some (some { name := dotdot, path := 47 :: bs }) := by
  unfold parentEntry?
  rw [if_neg (cwd_ne_append h)]
  simp only [parent?_append h, stripPrefixPath_append]
theorem entriesOf_sound (fs : FS) (cwd rel : FsPath) :
    ∀ (children : List FsName) (es : List Entry),
      entriesOf fs cwd (cwd ++ rel) children = some es →
      ∀ e ∈ es, ∃ c ∈ children, e.path = 47 :: relBytes (rel ++ [c]) ∧
        validUtf8 (relBytes (rel ++ [c])) = true := by
  intro children
  induction children with
  | nil =>
    intro es h e he
    simp [entriesOf] at h
    subst h
    simp at he
  | cons c cs ih =>
    intro es h e he
    rw [entriesOf] at h
    cases hce : childEntry? fs cwd (cwd ++ rel) c with
    | none => rw [hce] at h; simp at h
    | some oe =>
      rw [hce] at h
      cases hrest : entriesOf fs cwd (cwd ++ rel) cs with
      | none => rw [hrest] at h; simp at h
      | some es2 =>
        rw [hrest] at h
        simp at h
        subst h
        rcases List.mem_append.mp he with he1 | he2
        · unfold childEntry? at hce
          simp only [List.append_assoc, stripPrefixPath_append] at hce
          cases hfn : fileName? (rel ++ [c]) with
          | none => rw [hfn] at hce; simp at hce
          | some last =>
            simp only [hfn] at hce
            by_cases hvl : validUtf8 last = true
            · rw [if_pos hvl] at hce
              cases hps : pathToStr? (rel ++ [c]) with
              | none => rw [hps] at hce; simp at hce
              | some bs =>
                simp only [hps] at hce
                obtain ⟨hv, hbs⟩ := pathToStr?_some hps
                simp at hce
                subst hce
                simp at he1
                subst he1
                exact ⟨c, by simp, by simp [hbs], hv⟩
            · rw [if_neg hvl] at hce; simp at hce
        · obtain ⟨c2, hc2, h1, h2⟩ := ih es2 hrest e he2
          exact ⟨c2, by simp [hc2], h1, h2⟩
theorem entriesOf_total (fs : FS) (cwd rel : FsPath) (hv : ∀ n ∈ rel, validUtf8 n = true) :
    ∀ (children : List FsName), (∀ c ∈ children, validUtf8 c = true ∧ c ≠ dotdot) →
      (entriesOf fs cwd (cwd ++ rel) children).isSome = true := by
  intro children
  induction children with
  | nil => intro _; rfl
  | cons c cs ih =>
    intro hch
    obtain ⟨hcv, hcd⟩ := hch c (by simp)
    obtain ⟨es2, hes2⟩ := Option.isSome_iff_exists.mp (ih (fun x hx => hch x (by simp [hx])))
    have hfn : fileName? (rel ++ [c]) = some c := by
      unfold fileName?
      rw [List.getLast?_concat]
      simp only [dotdot] at hcd
      simp [hcd]
    have hvall : validUtf8 (relBytes (rel ++ [c])) = true := by
      apply validUtf8_relBytes
      intro n hn
      rcases List.mem_append.mp hn with h | h
      · exact hv n h
      · simp at h; subst h; exact hcv
    have hps : pathToStr? (rel ++ [c]) = some (relBytes (rel ++ [c])) :=
      pathToStr?_of_valid hvall
    rw [entriesOf]
    unfold childEntry?
    simp only [List.append_assoc, stripPrefixPath_append, hfn, hcv, if_true, hps, hes2]
    rfl
theorem dirFiles?_decomp (fs : FS) (cwd rel : FsPath) (children : List FsName)
    (files : List Entry) (h : dirFiles? fs cwd (cwd ++ rel) children = some files) :
    (rel = [] → entriesOf fs cwd (cwd ++ rel) children = some files) ∧
    (rel ≠ [] → validUtf8 (relBytes rel.dropLast) = true ∧
      ∃ es, entriesOf fs cwd (cwd ++ rel) children = some es ∧
        files = { name := dotdot, path := 47 :: relBytes rel.dropLast } :: es) := by
  constructor
  · intro hrel
    subst hrel
    unfold dirFiles? at h
    rw [List.append_nil] at h ⊢
    rw [parentEntry?_self] at h
    cases hes : entriesOf fs cwd cwd children with
    | none => rw [hes] at h; simp at h
    | some es =>
      rw [hes] at h
      simp at h
      rw [h]
  · intro hrel
    unfold dirFiles? at h
    rw [parentEntry?_descend cwd rel hrel] at h
    cases hps : pathToStr? rel.dropLast with
    | none => rw [hps] at h; simp at h
    | some bs =>
      simp only [hps] at h
      obtain ⟨hv, hbs⟩ := pathToStr?_some hps
      subst hbs
      refine ⟨hv, ?_⟩
      cases hes : entriesOf fs cwd (cwd ++ rel) children with
      | none => rw [hes] at h; simp at h
      | some es =>
        rw [hes] at h
        simp at h
        exact ⟨es, rfl, h.symm⟩

theorem handle_request_some {opts : ServerOptions} {fs : FS} {cwd : FsPath} {req : Request}
    {resp : Response} (h : handle_request opts fs cwd req = some resp) :
    ∃ p bres, resolveReqPath? cwd req.uriPath = some p ∧
      (if fs.isDirAt p then handle_dir fs cwd p else some (handle_file fs p)) = some bres ∧
      resp =
        { headers :=
            { contentType := classifyMime fs p
              contentLength := (match bres with | .ok b => b | .error e => errorBody e).length
              server := SERVER_VERSION
              accessControlAllowOrigin := if opts.cors then some star else none
              accessControlAllowHeaders := if opts.cors then some corsAllowHeaders else none }
          body := match bres with | .ok b => b | .error e => errorBody e } := by
  unfold handle_request at h
  cases hr : resolveReqPath? cwd req.uriPath with
  | none => rw [hr] at h; simp at h
  | some p =>
    simp only [hr] at h
    cases hb : (if fs.isDirAt p then handle_dir fs cwd p else some (handle_file fs p)) with
    | none => simp only [hb] at h; simp at h
    | some bres =>
      simp only [hb] at h
      rw [Option.some_inj] at h
      exact ⟨p, bres, rfl, hb, h.symm⟩

/-- C1 (amended): a request path whose percent-decoded bytes are not valid
UTF-8 makes the handler panic — the request-handling pass terminates
producing no response at all (the `unwrap` on `decode_utf8`), instead of
surfacing a DecodeError as an error-body response. -/
theorem c1_decode_error_panics (opts : ServerOptions) (fs : FS) (cwd : FsPath) (req : Request)
    (raw : List Nat) (h1 : sliceBytesFrom1? (bytesOf req.uriPath) = some raw)
    (h2 : validUtf8 (percentDecode raw) = false) :
    handle_request opts fs cwd req = none := by
  unfold handle_request resolveReqPath? resolvePathBytes?
  rw [h1]
  simp [resolveRaw?, h2]

/-- C1: counterexample — for `GET /%FF` (whose path percent-decodes to the
invalid UTF-8 byte `0xFF`) the handler emits no response at all. -/
theorem c1_decode_panic_cex : handle_request ServerOptions.default fsA [nsrv] reqBad = none := by
  decide

theorem c1_decode_error_panics_witness :
    sliceBytesFrom1? (bytesOf reqBad.uriPath) = some [37, 70, 70] ∧
    validUtf8 (percentDecode [37, 70, 70]) = false ∧
    handle_request ServerOptions.default fsB [nsrv] reqBad = none :=
  ⟨by decide, by decide,
    c1_decode_error_panics ServerOptions.default fsB [nsrv] reqBad [37, 70, 70]
      (by decide) (by decide)⟩


/-- C2 (amended): when the directory or file branch fails with an IO error,
the handler still assembles and emits a complete response whose body is
`Error: <message>` (non-empty, with exact Content-Length); its Content-Type
is the MIME classification of the request path (so `text/plain` exactly
when the classifier says so, not always).  A resolver (decode) failure
instead panics. -/
theorem c2_error_body_contained (opts : ServerOptions) (fs : FS) (cwd : FsPath) (req : Request)
    (p : FsPath) (e : String) (h1 : resolveReqPath? cwd req.uriPath = some p)
    (h2 : (if fs.isDirAt p then handle_dir fs cwd p else some (handle_file fs p)) =
      some (.error e)) :
    ∃ resp, handle_request opts fs cwd req = some resp ∧ resp.body = errorBody e ∧
      resp.body ≠ [] ∧ resp.headers.contentLength = resp.body.length ∧
      resp.headers.contentType = classifyMime fs p := by
  have hreq : handle_request opts fs cwd req =
      some { headers :=
               { contentType := classifyMime fs p
                 contentLength := (errorBody e).length
                 server := SERVER_VERSION
                 accessControlAllowOrigin := if opts.cors then some star else none
                 accessControlAllowHeaders := if opts.cors then some corsAllowHeaders else none }
             body := errorBody e } := by
    unfold handle_request
    simp only [h1, h2]
  refine ⟨_, hreq, rfl, ?_, rfl, rfl⟩
  show errorBody e ≠ []
  unfold errorBody
  rw [bytesOf_append]
  rw [show bytesOf errPre = [69, 114, 114, 111, 114, 58, 32] from by decide]
  simp

/-- C2: counterexample — requesting the non-existent `/missing.html` yields
the error body, but with Content-Type `text/html` (from the extension), not
`text/plain` as claimed. -/
theorem c2_error_body_mime_cex :
    (handle_request ServerOptions.default fsB [nsrv] reqMissingHtml).map
        (fun r => (r.headers.contentType, r.body)) =
      some (textHtml, errorBody msgNf) ∧ textHtml ≠ textPlain :=
  ⟨by decide, by decide⟩

theorem c2_error_body_contained_witness :
    resolveReqPath? [nsrv] reqMissingHtml.uriPath = some [nsrv, nhtml] ∧
    (if fsB.isDirAt [nsrv, nhtml] then handle_dir fsB [nsrv] [nsrv, nhtml]
     else some (handle_file fsB [nsrv, nhtml])) = some (.error msgNf) ∧
    (∃ resp, handle_request ServerOptions.default fsB [nsrv] reqMissingHtml = some resp ∧
      resp.body = errorBody msgNf ∧ resp.body ≠ [] ∧
      resp.headers.contentLength = resp.body.length ∧
      resp.headers.contentType = classifyMime fsB [nsrv, nhtml]) :=
  ⟨by decide, by decide,
    c2_error_body_contained ServerOptions.default fsB [nsrv] reqMissingHtml [nsrv, nhtml] msgNf
      (by decide) (by decide)⟩


/-- C5: for every response the handler emits, the Content-Length header
value equals the exact byte length of the emitted body. -/
theorem c5_content_length_exact (opts : ServerOptions) (fs : FS) (cwd : FsPath) (req : Request)
    (resp : Response) (h : handle_request opts fs cwd req = some resp) :
    resp.headers.contentLength = resp.body.length := by
  obtain ⟨p, bres, _, _, rfl⟩ := handle_request_some h
  rfl

theorem c5_content_length_exact_witness :
    handle_request ServerOptions.default fsA [nsrv] reqA = some respA ∧
    respA.headers.contentLength = respA.body.length :=
  ⟨by decide,
    c5_content_length_exact ServerOptions.default fsA [nsrv] reqA respA (by decide)⟩

/-- C7: with CORS disabled no Access-Control header is set; with CORS
enabled the response carries `Access-Control-Allow-Origin: *` and the
`Access-Control-Allow-Headers` list Range, Content-Type, Accept, Origin. -/
theorem c7_cors_toggle (opts : ServerOptions) (fs : FS) (cwd : FsPath) (req : Request)
    (resp : Response) (h : handle_request opts fs cwd req = some resp) :
    (opts.cors = false → resp.headers.accessControlAllowOrigin = none ∧
      resp.headers.accessControlAllowHeaders = none) ∧
    (opts.cors = true → resp.headers.accessControlAllowOrigin = some star ∧
      resp.headers.accessControlAllowHeaders = some corsAllowHeaders) := by
  obtain ⟨p, bres, _, _, rfl⟩ := handle_request_some h
  constructor
  · intro hc
    constructor <;> simp [hc]
  · intro hc
    constructor <;> simp [hc]

theorem c7_cors_toggle_witness :
    handle_request optsOn fsA [nsrv] reqA = some respAOn ∧
    ((optsOn.cors = false → respAOn.headers.accessControlAllowOrigin = none ∧
       respAOn.headers.accessControlAllowHeaders = none) ∧
     (optsOn.cors = true → respAOn.headers.accessControlAllowOrigin = some star ∧
       respAOn.headers.accessControlAllowHeaders = some corsAllowHeaders)) :=
  ⟨by decide, c7_cors_toggle optsOn fsA [nsrv] reqA respAOn (by decide)⟩

/-- C9: the emitted response is a function of the request path alone
(given the configuration, filesystem and working directory): requests
differing only in method, headers or body get identical responses. -/
theorem c9_response_depends_only_on_path (opts : ServerOptions) (fs : FS) (cwd : FsPath)
    (r1 r2 : Request) (h : r1.uriPath = r2.uriPath) :
    handle_request opts fs cwd r1 = handle_request opts fs cwd r2 := by
  unfold handle_request
  rw [h]

theorem c9_response_depends_only_on_path_witness :
    reqA.uriPath = reqApost.uriPath ∧
    handle_request ServerOptions.default fsA [nsrv] reqA =
      handle_request ServerOptions.default fsA [nsrv] reqApost :=
  ⟨by decide,
    c9_response_depends_only_on_path ServerOptions.default fsA [nsrv] reqA reqApost (by decide)⟩


/-- C6: directories are classified `text/html; charset=utf-8`; files go
through the static lowercase extension→MIME table, and an unknown or
absent extension falls back to `text/plain` (no charset). -/
theorem c6_mime_classification (opts : ServerOptions) (fs : FS) (cwd : FsPath) (req : Request)
    (p : FsPath) (resp : Response) (h1 : resolveReqPath? cwd req.uriPath = some p)
    (h2 : handle_request opts fs cwd req = some resp) :
    (fs.isDirAt p = true → resp.headers.contentType = textHtmlUtf8) ∧
    (fs.isDirAt p = false →
      (∀ ext, fileExtension? p = some ext →
        resp.headers.contentType =
          (match getMimeTypeOpt (if validUtf8 ext then ext else []) with
           | some m => m
           | none => textPlain)) ∧
      (fileExtension? p = none → resp.headers.contentType = textPlain)) := by
  obtain ⟨p2, bres, hr, _, rfl⟩ := handle_request_some h2
  have hp : p2 = p := by
    rw [h1] at hr
    exact (Option.some_inj.mp hr).symm
  subst hp
  constructor
  · intro hdir
    show classifyMime fs p2 = textHtmlUtf8
    unfold classifyMime
    rw [if_pos hdir]
  · intro hndir
    constructor
    · intro ext hext
      show classifyMime fs p2 = _
      unfold classifyMime
      rw [if_neg (by simp [hndir])]
      simp only [hext]
    · intro hext
      show classifyMime fs p2 = textPlain
      unfold classifyMime
      rw [if_neg (by simp [hndir])]
      simp only [hext]

theorem c6_mime_classification_witness :
    resolveReqPath? [nsrv] reqA.uriPath = some [nsrv, natxt] ∧
    handle_request ServerOptions.default fsA [nsrv] reqA = some respA ∧
    ((fsA.isDirAt [nsrv, natxt] = true → respA.headers.contentType = textHtmlUtf8) ∧
     (fsA.isDirAt [nsrv, natxt] = false →
       (∀ ext, fileExtension? [nsrv, natxt] = some ext →
         respA.headers.contentType =
           (match getMimeTypeOpt (if validUtf8 ext then ext else []) with
            | some m => m
            | none => textPlain)) ∧
       (fileExtension? [nsrv, natxt] = none → respA.headers.contentType = textPlain))) :=
  ⟨by decide, by decide,
    c6_mime_classification ServerOptions.default fsA [nsrv] reqA [nsrv, natxt] respA
      (by decide) (by decide)⟩


/-- C4 (amended): there is no startup-resolved root directory — the handler
re-reads the process working directory on every request, so each request is
resolved against the request-time working directory; when the working
directory never changes from its launch value, every request is resolved
against that launch value. -/
theorem c4_rootdir_per_request_cwd (opts : ServerOptions) (fs : FS) (cwd0 : FsPath)
    (reqs : List (FsPath × Request)) (h : ∀ pr ∈ reqs, pr.1 = cwd0) :
    serveTrace opts fs reqs = reqs.map (fun pr => handle_request opts fs cwd0 pr.2) := by
  unfold serveTrace
  apply List.map_eq_map_iff.mpr
  intro pr hpr
  rw [h pr hpr]

/-- C4: counterexample — a two-request trace in which the working directory
differs at the second request produces different responses from the trace
resolved against the launch-time directory: resolution tracks the
request-time working directory, not a startup-resolved `rootDir`. -/
theorem c4_rootdir_cex :
    serveTrace ServerOptions.default fsC [([], reqX), ([nbdir], reqX)] ≠
      [([], reqX), ([nbdir], reqX)].map
        (fun pr => handle_request ServerOptions.default fsC [] pr.2) := by
  decide

theorem c4_rootdir_per_request_cwd_witness :
    (∀ pr ∈ [([nsrv], reqA), ([nsrv], reqApost)], pr.1 = [nsrv]) ∧
    serveTrace ServerOptions.default fsA [([nsrv], reqA), ([nsrv], reqApost)] =
      [([nsrv], reqA), ([nsrv], reqApost)].map
        (fun pr => handle_request ServerOptions.default fsA [nsrv] pr.2) :=
  ⟨by decide,
    c4_rootdir_per_request_cwd ServerOptions.default fsA [nsrv]
      [([nsrv], reqA), ([nsrv], reqApost)] (by decide)⟩

/-- C8: a listed directory that is not the root itself gets a synthesized
first entry named `..` whose link path is `/` followed by the parent's
path relative to the root; the root directory itself gets no such entry. -/
theorem c8_parent_entry (fs : FS) (cwd rel : FsPath) (children : List FsName)
    (files : List Entry) (h : dirFiles? fs cwd (cwd ++ rel) children = some files) :
    (rel = [] → entriesOf fs cwd (cwd ++ rel) children = some files) ∧
    (rel ≠ [] → ∃ es, entriesOf fs cwd (cwd ++ rel) children = some es ∧
      files = { name := dotdot, path := 47 :: relBytes rel.dropLast } :: es) := by
  obtain ⟨h1, h2⟩ := dirFiles?_decomp fs cwd rel children files h
  exact ⟨h1, fun hr => (h2 hr).2⟩

theorem c8_parent_entry_witness :
    dirFiles? fsA [nsrv] ([nsrv] ++ [nd]) [na] = some filesD ∧
    (([nd] : FsPath) = [] → entriesOf fsA [nsrv] ([nsrv] ++ [nd]) [na] = some filesD) ∧
    (([nd] : FsPath) ≠ [] → ∃ es, entriesOf fsA [nsrv] ([nsrv] ++ [nd]) [na] = some es ∧
      filesD = { name := dotdot, path := 47 :: relBytes ([nd] : FsPath).dropLast } :: es) :=
  ⟨by decide,
    (c8_parent_entry fsA [nsrv] [nd] [na] filesD (by decide)).1,
    (c8_parent_entry fsA [nsrv] [nd] [na] filesD (by decide)).2⟩


/-- C3 (amended): round-trip holds for every emitted entry whose path
components are ordinary file names free of `%`: each such linkPath, fed
back through the resolver, yields exactly the generating filesystem entry
(the parent directory for the `..` entry, `dir/child` for a child entry).
A name containing a decodable percent-escape breaks the round trip, since
links are emitted un-encoded and the resolver percent-decodes. -/
theorem c3_roundtrip_percent_free (fs : FS) (cwd rel : FsPath) (children : List FsName)
    (files : List Entry) (hrel : ∀ n ∈ rel, goodName n) (hch : ∀ c ∈ children, goodName c)
    (h : dirFiles? fs cwd (cwd ++ rel) children = some files) :
    ∀ e ∈ files,
      (e = { name := dotdot, path := 47 :: relBytes rel.dropLast } ∧
        resolvePathBytes? cwd e.path = some (cwd ++ rel.dropLast)) ∨
      (∃ c ∈ children, e.path = 47 :: relBytes (rel ++ [c]) ∧
        resolvePathBytes? cwd e.path = some (cwd ++ (rel ++ [c]))) := by
  obtain ⟨h1, h2⟩ := dirFiles?_decomp fs cwd rel children files h
  intro e he
  have hchild : ∀ es, entriesOf fs cwd (cwd ++ rel) children = some es → e ∈ es →
      ∃ c ∈ children, e.path = 47 :: relBytes (rel ++ [c]) ∧
        resolvePathBytes? cwd e.path = some (cwd ++ (rel ++ [c])) := by
    intro es hes hees
    obtain ⟨c, hcmem, hpath, hval⟩ := entriesOf_sound fs cwd rel children es hes e hees
    refine ⟨c, hcmem, hpath, ?_⟩
    rw [hpath]
    apply resolveLink cwd (rel ++ [c]) hval
    intro n hn
    rcases List.mem_append.mp hn with hn2 | hn2
    · exact hrel n hn2
    · simp at hn2
      rw [hn2]
      exact hch c hcmem
  by_cases hr : rel = []
  · exact Or.inr (hchild files (h1 hr) he)
  · obtain ⟨hval, es, hes, rfl⟩ := h2 hr
    rcases List.mem_cons.mp he with rfl | he2
    · left
      refine ⟨rfl, ?_⟩
      show resolvePathBytes? cwd (47 :: relBytes rel.dropLast) = some (cwd ++ rel.dropLast)
      apply resolveLink cwd rel.dropLast hval
      intro n hn
      exact hrel n ((List.dropLast_sublist rel).subset hn)
    · exact Or.inr (hchild es hes he2)

/-- C3: counterexample — a child literally named `%41` produces linkPath
`/%41`, which the resolver percent-decodes to `A`: it resolves to
`/srv/A`, not to the entry `/srv/%41` it was generated from. -/
theorem c3_roundtrip_cex :
    dirFiles? fsB [nsrv] [nsrv] [npct] = some [{ name := npct, path := [47, 37, 52, 49] }] ∧
    resolvePathBytes? [nsrv] [47, 37, 52, 49] = some [nsrv, [65]] ∧
    ([nsrv, [65]] : FsPath) ≠ [nsrv, npct] :=
  ⟨by decide, by decide, by decide⟩

theorem c3_roundtrip_percent_free_witness :
    (∀ n ∈ ([nd] : FsPath), goodName n) ∧ (∀ c ∈ ([na] : List FsName), goodName c) ∧
    dirFiles? fsA [nsrv] ([nsrv] ++ [nd]) [na] = some filesD ∧
    (∀ e ∈ filesD,
      (e = { name := dotdot, path := 47 :: relBytes ([nd] : FsPath).dropLast } ∧
        resolvePathBytes? [nsrv] e.path = some ([nsrv] ++ ([nd] : FsPath).dropLast)) ∨
      (∃ c ∈ ([na] : List FsName), e.path = 47 :: relBytes ([nd] ++ [c]) ∧
        resolvePathBytes? [nsrv] e.path = some ([nsrv] ++ ([nd] ++ [c])))) :=
  ⟨by decide, by decide, by decide,
    c3_roundtrip_percent_free fsA [nsrv] [nd] [na] filesD (by decide) (by decide) (by decide)⟩


/-- C10 (amended): for a listed directory that is the root or a strict
descendant of it, all the relative-path strips of the directory renderer
succeed, and the branch completes without panicking provided additionally
every involved name is valid UTF-8 (and the children are ordinary names,
as `read_dir` guarantees); a non-UTF-8 file name still panics at
`to_str().unwrap()`. -/
theorem c10_descendant_no_panic (fs : FS) (cwd rel : FsPath)
    (hc : ∀ n ∈ cwd ++ rel, validUtf8 n = true)
    (hch : ∀ c ∈ readDirOrNil fs (cwd ++ rel), validUtf8 c = true ∧ c ≠ dotdot) :
    handle_dir fs cwd (cwd ++ rel) ≠ none := by
  have hbp : (parent? cwd).getD cwd = cwd.dropLast := by
    unfold parent?
    split <;> simp_all
  obtain ⟨r0, hstrip, hmem⟩ :
      ∃ r, stripPrefixPath cwd.dropLast (cwd ++ rel) = some r ∧ ∀ n ∈ r, n ∈ cwd ++ rel := by
    rcases List.eq_nil_or_concat cwd with hnil | ⟨l, a, rfl⟩
    · subst hnil
      exact ⟨rel, rfl, by simp⟩
    · simp only [List.concat_eq_append]
      rw [List.dropLast_concat, List.append_assoc]
      refine ⟨[a] ++ rel, stripPrefixPath_append l ([a] ++ rel), ?_⟩
      intro n hn
      rcases List.mem_cons.mp hn with rfl | hn2
      · simp
      · simp at hn2
        simp [hn2]
  have hval0 : validUtf8 (relBytes r0) = true :=
    validUtf8_relBytes r0 (fun n hn => hc n (hmem n hn))
  have hdn : dirName? cwd (cwd ++ rel) = some (relBytes r0 ++ [47]) := by
    unfold dirName?
    simp only [hbp, hstrip, pathToStr?_of_valid hval0]
  have hpe : ∃ pe, parentEntry? cwd (cwd ++ rel) = some pe := by
    by_cases hrel : rel = []
    · subst hrel
      rw [List.append_nil]
      exact ⟨none, parentEntry?_self cwd⟩
    · rw [parentEntry?_descend cwd rel hrel]
      have hvdl : validUtf8 (relBytes rel.dropLast) = true := by
        apply validUtf8_relBytes
        intro n hn
        exact hc n (List.mem_append.mpr (Or.inr ((List.dropLast_sublist rel).subset hn)))
      rw [pathToStr?_of_valid hvdl]
      exact ⟨_, rfl⟩
  obtain ⟨pe, hpe⟩ := hpe
  cases hrd : fs.readDirAt (cwd ++ rel) with
  | error e =>
    unfold handle_dir
    simp only [hdn, hpe, hrd]
    simp
  | ok children =>
    have hch2 : ∀ c ∈ children, validUtf8 c = true ∧ c ≠ dotdot := by
      intro c hcmem
      apply hch
      unfold readDirOrNil
      rw [hrd]
      exact hcmem
    have hcrel : ∀ n ∈ rel, validUtf8 n = true :=
      fun n hn => hc n (List.mem_append.mpr (Or.inr hn))
    obtain ⟨es, hes⟩ :=
      Option.isSome_iff_exists.mp (entriesOf_total fs cwd rel hcrel children hch2)
    unfold handle_dir
    simp only [hdn, hpe, hrd]
    unfold dirFiles?
    simp only [hpe, hes]
    simp

/-- C10: counterexample — listing the root directory itself (so the
precondition holds) panics when a child has the non-UTF-8 name `0xFF`:
the branch does not complete. -/
theorem c10_no_panic_cex : handle_dir fsN [nsrv] [nsrv] = none := by decide

theorem c10_descendant_no_panic_witness :
    (∀ n ∈ [nsrv] ++ ([] : FsPath), validUtf8 n = true) ∧
    (∀ c ∈ readDirOrNil fsA ([nsrv] ++ ([] : FsPath)), validUtf8 c = true ∧ c ≠ dotdot) ∧
    handle_dir fsA [nsrv] ([nsrv] ++ ([] : FsPath)) ≠ none :=
  ⟨by decide, by decide,
    c10_descendant_no_panic fsA [nsrv] [] (by decide) (by decide)⟩

end Sfz
